import Mathlib

/-!
Shallow embedding of the cocotb testbench `tb/tb_cocotb.py` of the
sparkletron/fifo repository.

The harness drives an external DUT through four directed scenarios.  The DUT
and the transaction driver (`xilinxFIFOsource` / `xilinxFIFOsink`) are
external collaborators: the only data the harness receives from them are the
values sampled on the read side.  We therefore model each scenario as a pure
function from a *sample oracle* (what each read call returns) to the pair of
the trace of effects the scenario performs and its final outcome (success or
the `AssertionError` message Python would raise).
-/

namespace Tb

/-- A Python value as it appears in driver calls: a plain integer or a list
of integers (`single_word` writes ints, `full_empty` writes lists). -/
inductive PyVal where
  | int (n : Nat)
  | list (l : List Nat)
  deriving DecidableEq, Repr

/-- One observable effect of the harness:
starting a clock generator on a named signal, assigning a value to a named
signal (`dut.X.value = v`), reading a named signal (`dut.X.value`),
suspending on a `Timer` for a number of ns, a driver write, a driver read
(expected argument and sampled result), awaiting a rising edge of a named
signal, or a call to the `random_bool` helper. -/
inductive Event where
  | startClock (sig : String)
  | setSignal (sig : String) (v : Nat)
  | getSignal (sig : String)
  | timer (ns : Nat)
  | fifoWrite (v : PyVal)
  | fifoRead (expected : PyVal) (sampled : PyVal)
  | risingEdge (sig : String)
  | callRandomBool
  deriving DecidableEq, Repr

/-- Final state of a scenario: completed, or aborted by a Python `assert`
carrying its message string. -/
inductive Outcome where
  | ok
  | assertionError (msg : String)
  deriving DecidableEq, Repr

/-- The message of every data assert in `single_word` and `full_empty`. -/
def assertMsg : String := "Input data does not match output"

/-- The message of the empty-flag assert in `in_reset` and `no_clock`. -/
def emptyMsg : String := "Empty is 0, not empty in reset!"

/-- `start_clock(dut)`: starts the three clock generators
(`wr_clk`, `rd_clk`, `data_count_clk`), each with period 1 ns. -/
def start_clock : List Event :=
  [.startClock "wr_clk", .startClock "rd_clk", .startClock "data_count_clk"]

/-- `reset_dut(dut)`: drive the three reset lines to 0, wait 5 ns, drive
them back to 1, in source order. -/
def reset_dut : List Event :=
  [.setSignal "rd_rstn" 0, .setSignal "wr_rstn" 0, .setSignal "data_count_rstn" 0,
   .timer 5,
   .setSignal "rd_rstn" 1, .setSignal "wr_rstn" 1, .setSignal "data_count_rstn" 1]

/-- Constructing `xilinxFIFOsource(dut, "wr", dut.wr_clk, dut.wr_rstn,
dut.FWFT.value != 0, dut.ACK_ENA.value != 0)` reads the two static
configuration signals, in argument order. -/
def mkSourceEvents : List Event := [.getSignal "FWFT", .getSignal "ACK_ENA"]

/-- Constructing `xilinxFIFOsink(dut, "rd", dut.rd_clk, dut.rd_rstn,
dut.FWFT.value != 0)` reads `FWFT` once. -/
def mkSinkEvents : List Event := [.getSignal "FWFT"]

/-- Python `range(n-1, -1, -1)` as a list: `[n-1, n-2, ..., 0]`. -/
def rangeDown : Nat → List Nat
  | 0 => []
  | n + 1 => n :: rangeDown n

/-- Loop body of `single_word`: for each remaining value `x`, write the
single value, read a single value (the oracle gives what the sink samples at
the `i`-th read), and `assert rx_data == x`; a failing assert aborts the
loop with the fixed message. -/
def singleWordLoop (sample : Nat → Nat) : List Nat → Nat → List Event × Outcome
  | [], _ => ([], .ok)
  | x :: xs, i =>
    let rx := sample i
    if rx = x then
      let rest := singleWordLoop sample xs (i + 1)
      (.fifoWrite (.int x) :: .fifoRead (.int x) (.int rx) :: rest.1, rest.2)
    else
      ([.fifoWrite (.int x), .fifoRead (.int x) (.int rx)], .assertionError assertMsg)

/-- The `single_word` test: start the clocks, construct the source and sink
(reading `FWFT`, `ACK_ENA`, `FWFT`), await `reset_dut`, then run the loop
over `range(255, -1, -1)`. -/
def single_word (sample : Nat → Nat) : List Event × Outcome :=
  let body := singleWordLoop sample (rangeDown 256) 0
  (start_clock ++ mkSourceEvents ++ mkSinkEvents ++ reset_dut ++ body.1, body.2)

/-- Loop body of `full_empty`: each round reads `FIFO_DEPTH` (evaluating
`range(dut.FIFO_DEPTH.value)`), builds `temp = [x] * depth`, writes the whole
list, reads a list of the same length (element `k` of round `r` being
`sample r k`), asserts each sampled element equals `x`, then awaits a rising
edge of `rd_clk`; a failing assert aborts before the edge wait. -/
def fullEmptyLoop (d : Nat) (sample : Nat → Nat → Nat) :
    List Nat → Nat → List Event × Outcome
  | [], _ => ([], .ok)
  | x :: xs, r =>
    let temp := List.replicate d x
    let rx := (List.range d).map (sample r)
    let evs := [Event.getSignal "FIFO_DEPTH",
                Event.fifoWrite (.list temp), Event.fifoRead (.list temp) (.list rx)]
    if rx.all (fun y => y == x) then
      let rest := fullEmptyLoop d sample xs (r + 1)
      (evs ++ Event.risingEdge "rd_clk" :: rest.1, rest.2)
    else
      (evs, .assertionError assertMsg)

/-- The `full_empty` test: same prelude as `single_word`, then the round loop
over `range(255, -1, -1)` with the DUT's configured depth `d`. -/
def full_empty (d : Nat) (sample : Nat → Nat → Nat) : List Event × Outcome :=
  let body := fullEmptyLoop d sample (rangeDown 256) 0
  (start_clock ++ mkSourceEvents ++ mkSinkEvents ++ reset_dut ++ body.1, body.2)

/-- The `in_reset` test: start the clocks, drive `rd_rstn` and `wr_rstn` to 0
(and never release them), wait 10 ns, sample `rd_empty` (the oracle value
`v`) and `assert dut.rd_empty.value.integer == 1`. -/
def in_reset (v : Nat) : List Event × Outcome :=
  (start_clock ++
     [.setSignal "rd_rstn" 0, .setSignal "wr_rstn" 0, .timer 10, .getSignal "rd_empty"],
   if v = 1 then .ok else .assertionError emptyMsg)

/-- The `no_clock` test: drive `rd_rstn` to 0, force `rd_clk` to 0, drive
`wr_rstn` to 0, force `rd_clk` to 0 again (the source repeats the
assignment), wait 5 ns, sample `rd_empty` and assert it equals 1.  No clock
generator is ever started. -/
def no_clock (v : Nat) : List Event × Outcome :=
  ([.setSignal "rd_rstn" 0, .setSignal "rd_clk" 0, .setSignal "wr_rstn" 0,
    .setSignal "rd_clk" 0, .timer 5, .getSignal "rd_empty"],
   if v = 1 then .ok else .assertionError emptyMsg)

/-- `itertools.cycle` of a list, viewed as the infinite sequence it yields:
element `k` is the list element at index `k mod length`. -/
def itertools_cycle (l : List Bool) (k : Nat) : Bool := l.getD (k % l.length) false

/-- `random_bool()`: build a 256-element list of random bits (the `k`-th
draw of `random.getrandbits(1)` modeled by `bits k`) and return
`itertools.cycle` of it. -/
def random_bool (bits : Nat → Bool) : Nat → Bool :=
  itertools_cycle ((List.range 256).map bits)

/-- Number of `getSignal sig` events in a trace. -/
def countGet (sig : String) (evs : List Event) : Nat :=
  evs.countP (fun e => match e with | .getSignal s => s == sig | _ => false)

/-- Number of `setSignal sig _` events in a trace. -/
def countSet (sig : String) (evs : List Event) : Nat :=
  evs.countP (fun e => match e with | .setSignal s _ => s == sig | _ => false)

/-- Number of driver write calls in a trace. -/
def countWrites (evs : List Event) : Nat :=
  evs.countP (fun e => match e with | .fifoWrite _ => true | _ => false)

/-- `true` iff no `startClock` event occurs in the trace. -/
def clockFree (evs : List Event) : Bool :=
  evs.all (fun e => match e with | .startClock _ => false | _ => true)

/-- `true` iff the harness never assigns any of the three static
configuration signals in the trace. -/
def configUntouched (evs : List Event) : Bool :=
  evs.all (fun e => match e with
    | .setSignal s _ => !(s == "FWFT" || s == "ACK_ENA" || s == "FIFO_DEPTH")
    | _ => true)

/-- `true` iff the trace contains a call to `random_bool`. -/
def callsRandomBool (evs : List Event) : Bool :=
  evs.any (fun e => match e with | .callRandomBool => true | _ => false)

/-- Formalisation of "first drives both reset lines to 0, then starts the
clocks": both reset assignments occur strictly before any `startClock`
event. -/
def drivesResetsThenClocks (evs : List Event) : Bool :=
  let pre := evs.takeWhile (fun e => match e with | .startClock _ => false | _ => true)
  pre.contains (.setSignal "wr_rstn" 0) && pre.contains (.setSignal "rd_rstn" 0)

/-! ### Basic facts about `rangeDown` -/

theorem rangeDown_length : ∀ n, (rangeDown n).length = n
  | 0 => rfl
  | n + 1 => by simp [rangeDown, rangeDown_length n]

theorem rangeDown_getD : ∀ n j, j < n → (rangeDown n).getD j 0 = n - 1 - j
  | 0, j, h => absurd h (Nat.not_lt_zero j)
  | n + 1, 0, _ => by simp [rangeDown]
  | n + 1, j + 1, h => by
      have hj : j < n := Nat.lt_of_succ_lt_succ h
      rw [rangeDown, List.getD_cons_succ, rangeDown_getD n j hj]
      omega

/-- Transport an evaluation fact along an arithmetic equality of the
argument (used to shift loop indices). -/
theorem shiftArg {α : Type} (f : Nat → α) {a b : Nat} {c : α}
    (h : f a = c) (hab : b = a) : f b = c := by rw [hab]; exact h

/-! ### Lemmas about the `single_word` loop -/

theorem singleWordLoop_ok_iff (sample : Nat → Nat) :
    ∀ (xs : List Nat) (i0 : Nat),
      (singleWordLoop sample xs i0).2 = Outcome.ok ↔
        ∀ j, j < xs.length → sample (i0 + j) = xs.getD j 0
  | [], i0 => by simp [singleWordLoop]
  | x :: xs, i0 => by
      simp only [singleWordLoop]
      by_cases h : sample i0 = x
      · rw [if_pos h]
        rw [singleWordLoop_ok_iff sample xs (i0 + 1)]
        constructor
        · intro H j hj
          match j with
          | 0 => simpa using h
          | j + 1 =>
            have := H j (Nat.lt_of_succ_lt_succ hj)
            rw [List.getD_cons_succ]
            exact shiftArg sample this (by omega)
        · intro H j hj
          have := H (j + 1) (Nat.succ_lt_succ hj)
          rw [List.getD_cons_succ] at this
          exact shiftArg sample this (by omega)
      · rw [if_neg h]
        constructor
        · intro H; exact absurd H (by simp)
        · intro H
          have := H 0 (Nat.succ_pos _)
          rw [Nat.add_zero, List.getD_cons_zero] at this
          exact absurd this h

theorem singleWordLoop_trace_ok (sample : Nat → Nat) :
    ∀ (xs : List Nat) (i0 : Nat),
      (∀ j, j < xs.length → sample (i0 + j) = xs.getD j 0) →
      (singleWordLoop sample xs i0).1 =
        xs.flatMap (fun x => [Event.fifoWrite (.int x), Event.fifoRead (.int x) (.int x)])
  | [], i0, _ => by simp [singleWordLoop]
  | x :: xs, i0, H => by
      have h0 : sample i0 = x := by
        have := H 0 (Nat.succ_pos _)
        rwa [Nat.add_zero, List.getD_cons_zero] at this
      simp only [singleWordLoop, if_pos h0, List.flatMap_cons]
      rw [h0, singleWordLoop_trace_ok sample xs (i0 + 1)]
      · rfl
      · intro j hj
        have := H (j + 1) (Nat.succ_lt_succ hj)
        rw [List.getD_cons_succ] at this
        exact shiftArg sample this (by omega)

theorem singleWordLoop_abort (sample : Nat → Nat) :
    ∀ (xs : List Nat) (i0 i : Nat), i < xs.length →
      (∀ j, j < i → sample (i0 + j) = xs.getD j 0) →
      sample (i0 + i) ≠ xs.getD i 0 →
      (singleWordLoop sample xs i0).2 = Outcome.assertionError assertMsg
      ∧ countWrites (singleWordLoop sample xs i0).1 = i + 1
  | [], _, i, hi, _, _ => absurd hi (Nat.not_lt_zero i)
  | x :: xs, i0, 0, _, _, hbad => by
      rw [Nat.add_zero, List.getD_cons_zero] at hbad
      simp [singleWordLoop, if_neg hbad, countWrites, List.countP_cons]
  | x :: xs, i0, i + 1, hi, hpre, hbad => by
      have h0 : sample i0 = x := by
        have := hpre 0 (Nat.succ_pos _)
        rwa [Nat.add_zero, List.getD_cons_zero] at this
      have hrec := singleWordLoop_abort sample xs (i0 + 1) i (Nat.lt_of_succ_lt_succ hi)
        (by
          intro j hj
          have := hpre (j + 1) (Nat.succ_lt_succ hj)
          rw [List.getD_cons_succ] at this
          exact shiftArg sample this (by omega))
        (by
          rw [List.getD_cons_succ] at hbad
          intro hc
          exact hbad (shiftArg sample hc (by omega)))
      simp only [singleWordLoop, if_pos h0]
      refine ⟨hrec.1, ?_⟩
      have h2 := hrec.2
      simp only [countWrites] at h2 ⊢
      simp [List.countP_cons, h2, Nat.add_comm]

theorem singleWordLoop_congr (o1 o2 : Nat → Nat) :
    ∀ (xs : List Nat) (i0 : Nat),
      (∀ j, j < xs.length → o1 (i0 + j) = o2 (i0 + j)) →
      singleWordLoop o1 xs i0 = singleWordLoop o2 xs i0
  | [], _, _ => rfl
  | x :: xs, i0, H => by
      have h0 : o1 i0 = o2 i0 := by
        have := H 0 (Nat.succ_pos _)
        rwa [Nat.add_zero] at this
      have hrec := singleWordLoop_congr o1 o2 xs (i0 + 1) (by
        intro j hj
        have := H (j + 1) (Nat.succ_lt_succ hj)
        rw [show i0 + 1 + j = i0 + (j + 1) from by omega]
        exact this)
      simp only [singleWordLoop, h0, hrec]

theorem singleWordLoop_countGet (sample : Nat → Nat) (sig : String) :
    ∀ (xs : List Nat) (i0 : Nat), countGet sig (singleWordLoop sample xs i0).1 = 0
  | [], _ => rfl
  | x :: xs, i0 => by
      have ih := singleWordLoop_countGet sample sig xs (i0 + 1)
      simp only [countGet] at ih ⊢
      by_cases h : sample i0 = x
      · simp [singleWordLoop, if_pos h, List.countP_cons, ih]
      · simp [singleWordLoop, if_neg h, List.countP_cons]

theorem singleWordLoop_configUntouched (sample : Nat → Nat) :
    ∀ (xs : List Nat) (i0 : Nat), configUntouched (singleWordLoop sample xs i0).1 = true
  | [], _ => rfl
  | x :: xs, i0 => by
      have ih := singleWordLoop_configUntouched sample xs (i0 + 1)
      simp only [configUntouched] at ih ⊢
      by_cases h : sample i0 = x
      · simp only [singleWordLoop, if_pos h, List.all_cons, ih]
        rfl
      · simp [singleWordLoop, if_neg h]

theorem singleWordLoop_noRB (sample : Nat → Nat) :
    ∀ (xs : List Nat) (i0 : Nat), callsRandomBool (singleWordLoop sample xs i0).1 = false
  | [], _ => rfl
  | x :: xs, i0 => by
      have ih := singleWordLoop_noRB sample xs (i0 + 1)
      simp only [callsRandomBool] at ih ⊢
      by_cases h : sample i0 = x
      · simp [singleWordLoop, if_pos h, ih]
      · simp [singleWordLoop, if_neg h]

/-! ### Lemmas about the `full_empty` loop -/

/-- The per-round assert loop `for y in rx_data: assert y == x` passes
exactly when every sampled element of the round equals `x`. -/
theorem rxAll_iff (f : Nat → Nat) (d x : Nat) :
    (((List.range d).map f).all (fun y => y == x) = true) ↔ ∀ k, k < d → f k = x := by
  simp [List.all_eq_true, List.mem_range]

theorem map_range_replicate (f : Nat → Nat) (d x : Nat)
    (h : ∀ k, k < d → f k = x) :
    (List.range d).map f = List.replicate d x := by
  rw [List.eq_replicate_iff]
  refine ⟨by simp, ?_⟩
  intro b hb
  rcases List.mem_map.mp hb with ⟨k, hk, rfl⟩
  exact h k (List.mem_range.mp hk)

/-- Unfolding of a `full_empty` round whose sampled data all matches. -/
theorem fullEmptyLoop_cons_pos (d : Nat) (sample : Nat → Nat → Nat)
    (x : Nat) (xs : List Nat) (r0 : Nat) (h : ∀ k, k < d → sample r0 k = x) :
    fullEmptyLoop d sample (x :: xs) r0 =
      (Event.getSignal "FIFO_DEPTH" ::
         Event.fifoWrite (.list (List.replicate d x)) ::
         Event.fifoRead (.list (List.replicate d x)) (.list (List.replicate d x)) ::
         Event.risingEdge "rd_clk" :: (fullEmptyLoop d sample xs (r0 + 1)).1,
       (fullEmptyLoop d sample xs (r0 + 1)).2) := by
  simp only [fullEmptyLoop]
  rw [if_pos ((rxAll_iff (sample r0) d x).mpr h), map_range_replicate (sample r0) d x h]
  rfl

/-- Unfolding of a `full_empty` round with a sampled mismatch: the scenario
stops at the fixed-message assert, before the edge wait. -/
theorem fullEmptyLoop_cons_neg (d : Nat) (sample : Nat → Nat → Nat)
    (x : Nat) (xs : List Nat) (r0 : Nat) (h : ¬ ∀ k, k < d → sample r0 k = x) :
    fullEmptyLoop d sample (x :: xs) r0 =
      ([Event.getSignal "FIFO_DEPTH",
        Event.fifoWrite (.list (List.replicate d x)),
        Event.fifoRead (.list (List.replicate d x)) (.list ((List.range d).map (sample r0)))],
       Outcome.assertionError assertMsg) := by
  simp only [fullEmptyLoop]
  rw [if_neg (fun hc => h ((rxAll_iff (sample r0) d x).mp hc))]

theorem fullEmptyLoop_ok_iff (d : Nat) (sample : Nat → Nat → Nat) :
    ∀ (xs : List Nat) (r0 : Nat),
      (fullEmptyLoop d sample xs r0).2 = Outcome.ok ↔
        ∀ j, j < xs.length → ∀ k, k < d → sample (r0 + j) k = xs.getD j 0
  | [], r0 => by simp [fullEmptyLoop]
  | x :: xs, r0 => by
      by_cases h : ∀ k, k < d → sample r0 k = x
      · rw [fullEmptyLoop_cons_pos d sample x xs r0 h]
        rw [fullEmptyLoop_ok_iff d sample xs (r0 + 1)]
        constructor
        · intro H j hj
          match j with
          | 0 => simpa using h
          | j + 1 =>
            have := H j (Nat.lt_of_succ_lt_succ hj)
            rw [List.getD_cons_succ]
            intro k hk
            exact shiftArg (fun a => sample a k) (this k hk) (by omega)
        · intro H j hj
          have := H (j + 1) (Nat.succ_lt_succ hj)
          rw [List.getD_cons_succ] at this
          intro k hk
          exact shiftArg (fun a => sample a k) (this k hk) (by omega)
      · rw [fullEmptyLoop_cons_neg d sample x xs r0 h]
        constructor
        · intro H; exact absurd H (by simp)
        · intro H
          refine absurd (fun k hk => ?_) h
          have := H 0 (Nat.succ_pos _) k hk
          rwa [Nat.add_zero, List.getD_cons_zero] at this

theorem fullEmptyLoop_trace_ok (d : Nat) (sample : Nat → Nat → Nat) :
    ∀ (xs : List Nat) (r0 : Nat),
      (∀ j, j < xs.length → ∀ k, k < d → sample (r0 + j) k = xs.getD j 0) →
      (fullEmptyLoop d sample xs r0).1 =
        xs.flatMap (fun x =>
          [Event.getSignal "FIFO_DEPTH",
           Event.fifoWrite (.list (List.replicate d x)),
           Event.fifoRead (.list (List.replicate d x)) (.list (List.replicate d x)),
           Event.risingEdge "rd_clk"])
  | [], _, _ => by simp [fullEmptyLoop]
  | x :: xs, r0, H => by
      have h0 : ∀ k, k < d → sample r0 k = x := by
        intro k hk
        have := H 0 (Nat.succ_pos _) k hk
        rwa [Nat.add_zero, List.getD_cons_zero] at this
      rw [fullEmptyLoop_cons_pos d sample x xs r0 h0, List.flatMap_cons,
        fullEmptyLoop_trace_ok d sample xs (r0 + 1)]
      · rfl
      · intro j hj k hk
        have := H (j + 1) (Nat.succ_lt_succ hj) k hk
        rw [List.getD_cons_succ] at this
        exact shiftArg (fun a => sample a k) this (by omega)

theorem fullEmptyLoop_abort (d : Nat) (sample : Nat → Nat → Nat) :
    ∀ (xs : List Nat) (r0 r : Nat), r < xs.length →
      (∀ j, j < r → ∀ k, k < d → sample (r0 + j) k = xs.getD j 0) →
      ¬ (∀ k, k < d → sample (r0 + r) k = xs.getD r 0) →
      (fullEmptyLoop d sample xs r0).2 = Outcome.assertionError assertMsg
      ∧ countWrites (fullEmptyLoop d sample xs r0).1 = r + 1
  | [], _, r, hr, _, _ => absurd hr (Nat.not_lt_zero r)
  | x :: xs, r0, 0, _, _, hbad => by
      have hb : ¬ ∀ k, k < d → sample r0 k = x := by
        intro hc
        refine hbad (fun k hk => ?_)
        rw [Nat.add_zero, List.getD_cons_zero]
        exact hc k hk
      rw [fullEmptyLoop_cons_neg d sample x xs r0 hb]
      exact ⟨rfl, rfl⟩
  | x :: xs, r0, r + 1, hr, hpre, hbad => by
      have h0 : ∀ k, k < d → sample r0 k = x := by
        intro k hk
        have := hpre 0 (Nat.succ_pos _) k hk
        rwa [Nat.add_zero, List.getD_cons_zero] at this
      have hrec := fullEmptyLoop_abort d sample xs (r0 + 1) r (Nat.lt_of_succ_lt_succ hr)
        (by
          intro j hj k hk
          have := hpre (j + 1) (Nat.succ_lt_succ hj) k hk
          rw [List.getD_cons_succ] at this
          exact shiftArg (fun a => sample a k) this (by omega))
        (by
          intro hc
          refine hbad (fun k hk => ?_)
          rw [List.getD_cons_succ]
          exact shiftArg (fun a => sample a k) (hc k hk) (by omega))
      rw [fullEmptyLoop_cons_pos d sample x xs r0 h0]
      refine ⟨hrec.1, ?_⟩
      have h2 := hrec.2
      simp only [countWrites] at h2 ⊢
      simp [List.countP_cons, h2, Nat.add_comm]

theorem fullEmptyLoop_congr (d : Nat) (p1 p2 : Nat → Nat → Nat) :
    ∀ (xs : List Nat) (r0 : Nat),
      (∀ j, j < xs.length → ∀ k, k < d → p1 (r0 + j) k = p2 (r0 + j) k) →
      fullEmptyLoop d p1 xs r0 = fullEmptyLoop d p2 xs r0
  | [], _, _ => rfl
  | x :: xs, r0, H => by
      have h0 : ∀ k, k < d → p1 r0 k = p2 r0 k := by
        intro k hk
        have := H 0 (Nat.succ_pos _) k hk
        rwa [Nat.add_zero] at this
      have hrec := fullEmptyLoop_congr d p1 p2 xs (r0 + 1) (by
        intro j hj k hk
        have := H (j + 1) (Nat.succ_lt_succ hj) k hk
        rw [show r0 + 1 + j = r0 + (j + 1) from by omega]
        exact this)
      by_cases h : ∀ k, k < d → p1 r0 k = x
      · have h2 : ∀ k, k < d → p2 r0 k = x := fun k hk => (h0 k hk).symm.trans (h k hk)
        rw [fullEmptyLoop_cons_pos d p1 x xs r0 h, fullEmptyLoop_cons_pos d p2 x xs r0 h2,
          hrec]
      · have h2 : ¬ ∀ k, k < d → p2 r0 k = x :=
          fun hc => h (fun k hk => (h0 k hk).trans (hc k hk))
        rw [fullEmptyLoop_cons_neg d p1 x xs r0 h, fullEmptyLoop_cons_neg d p2 x xs r0 h2,
          List.map_congr_left (fun k hk => h0 k (List.mem_range.mp hk))]

theorem fullEmptyLoop_countGet_ne (d : Nat) (sample : Nat → Nat → Nat) (sig : String)
    (hsig : ("FIFO_DEPTH" == sig) = false) :
    ∀ (xs : List Nat) (r0 : Nat), countGet sig (fullEmptyLoop d sample xs r0).1 = 0
  | [], _ => rfl
  | x :: xs, r0 => by
      have ih := fullEmptyLoop_countGet_ne d sample sig hsig xs (r0 + 1)
      simp only [countGet] at ih ⊢
      by_cases h : ∀ k, k < d → sample r0 k = x
      · rw [fullEmptyLoop_cons_pos d sample x xs r0 h]
        simp [List.countP_cons, ih, hsig]
      · rw [fullEmptyLoop_cons_neg d sample x xs r0 h]
        simp [List.countP_cons, hsig]

theorem fullEmptyLoop_countDepth_ok (d : Nat) (sample : Nat → Nat → Nat) :
    ∀ (xs : List Nat) (r0 : Nat),
      (∀ j, j < xs.length → ∀ k, k < d → sample (r0 + j) k = xs.getD j 0) →
      countGet "FIFO_DEPTH" (fullEmptyLoop d sample xs r0).1 = xs.length
  | [], _, _ => rfl
  | x :: xs, r0, H => by
      have h0 : ∀ k, k < d → sample r0 k = x := by
        intro k hk
        have := H 0 (Nat.succ_pos _) k hk
        rwa [Nat.add_zero, List.getD_cons_zero] at this
      have ih := fullEmptyLoop_countDepth_ok d sample xs (r0 + 1) (by
        intro j hj k hk
        have := H (j + 1) (Nat.succ_lt_succ hj) k hk
        rw [List.getD_cons_succ] at this
        exact shiftArg (fun a => sample a k) this (by omega))
      simp only [countGet] at ih ⊢
      rw [fullEmptyLoop_cons_pos d sample x xs r0 h0]
      simp [List.countP_cons, ih, Nat.add_comm]

theorem fullEmptyLoop_configUntouched (d : Nat) (sample : Nat → Nat → Nat) :
    ∀ (xs : List Nat) (r0 : Nat), configUntouched (fullEmptyLoop d sample xs r0).1 = true
  | [], _ => rfl
  | x :: xs, r0 => by
      have ih := fullEmptyLoop_configUntouched d sample xs (r0 + 1)
      simp only [configUntouched] at ih ⊢
      by_cases h : ∀ k, k < d → sample r0 k = x
      · rw [fullEmptyLoop_cons_pos d sample x xs r0 h]
        simp only [List.all_cons, ih]
        rfl
      · rw [fullEmptyLoop_cons_neg d sample x xs r0 h]
        rfl

theorem fullEmptyLoop_noRB (d : Nat) (sample : Nat → Nat → Nat) :
    ∀ (xs : List Nat) (r0 : Nat), callsRandomBool (fullEmptyLoop d sample xs r0).1 = false
  | [], _ => rfl
  | x :: xs, r0 => by
      have ih := fullEmptyLoop_noRB d sample xs (r0 + 1)
      simp only [callsRandomBool] at ih ⊢
      by_cases h : ∀ k, k < d → sample r0 k = x
      · rw [fullEmptyLoop_cons_pos d sample x xs r0 h]
        simp only [List.any_cons, ih]
        rfl
      · rw [fullEmptyLoop_cons_neg d sample x xs r0 h]
        rfl

/-- With `FIFO_DEPTH = 0` every round writes `[]`, reads `[]`, the assert
loop is vacuous, and the loop completes: outcome, number of driver writes,
and emptiness of every transferred payload, in one induction. -/
theorem fullEmptyLoop_zero (sample : Nat → Nat → Nat) :
    ∀ (xs : List Nat) (r0 : Nat),
      (fullEmptyLoop 0 sample xs r0).2 = Outcome.ok
      ∧ countWrites (fullEmptyLoop 0 sample xs r0).1 = xs.length
      ∧ ((fullEmptyLoop 0 sample xs r0).1.all (fun e =>
            match e with
            | .fifoWrite v => v == PyVal.list []
            | .fifoRead a b => a == PyVal.list [] && b == PyVal.list []
            | _ => true)) = true
  | [], _ => ⟨rfl, rfl, rfl⟩
  | x :: xs, r0 => by
      have ih := fullEmptyLoop_zero sample xs (r0 + 1)
      have h0 : ∀ k, k < 0 → sample r0 k = x := fun k hk => absurd hk (Nat.not_lt_zero k)
      rw [fullEmptyLoop_cons_pos 0 sample x xs r0 h0]
      refine ⟨ih.1, ?_, ?_⟩
      · have h2 := ih.2.1
        simp only [countWrites] at h2 ⊢
        simp [List.countP_cons, h2, List.replicate, Nat.add_comm]
      · have h3 := ih.2.2
        simp only [List.all_cons, List.replicate, h3]
        rfl


/-! ### Scenario-level helper lemmas -/

theorem countGet_single_word (sample : Nat → Nat) (sig : String) :
    countGet sig (single_word sample).1 =
      countGet sig (start_clock ++ mkSourceEvents ++ mkSinkEvents ++ reset_dut) := by
  have h := singleWordLoop_countGet sample sig (rangeDown 256) 0
  simp only [countGet] at h ⊢
  simp [single_word, List.countP_append, h]

theorem countGet_full_empty (d : Nat) (sample : Nat → Nat → Nat) (sig : String)
    (hsig : ("FIFO_DEPTH" == sig) = false) :
    countGet sig (full_empty d sample).1 =
      countGet sig (start_clock ++ mkSourceEvents ++ mkSinkEvents ++ reset_dut) := by
  have h := fullEmptyLoop_countGet_ne d sample sig hsig (rangeDown 256) 0
  simp only [countGet] at h ⊢
  simp [full_empty, List.countP_append, h]

/-- Both components of `full_empty`, written as prelude plus loop.  Stated
for a variable depth so the conversion never evaluates the loop. -/
theorem full_empty_parts (d : Nat) (sample : Nat → Nat → Nat) :
    (full_empty d sample).1 = start_clock ++ mkSourceEvents ++ mkSinkEvents ++
      reset_dut ++ (fullEmptyLoop d sample (rangeDown 256) 0).1
    ∧ (full_empty d sample).2 = (fullEmptyLoop d sample (rangeDown 256) 0).2 :=
  ⟨rfl, rfl⟩

/-! ### Claim theorems -/

/-- C1: `single_word` starts all three clocks, constructs the driver
endpoints, awaits the reset sequence, and then, for every `x` from 255 down
to 0, writes the single value `x`, reads a single value, and asserts in the
same iteration that the value read equals `x`.  It completes without failure
exactly when every read returns the value written in that iteration (first
conjunct), and in that case its trace is the prelude followed by the
write/read pairs in descending order (second conjunct). -/
theorem single_word_spec (sample : Nat → Nat) :
    ((single_word sample).2 = Outcome.ok ↔ ∀ i, i < 256 → sample i = 255 - i)
    ∧ ((∀ i, i < 256 → sample i = 255 - i) →
        (single_word sample).1 =
          start_clock ++ mkSourceEvents ++ mkSinkEvents ++ reset_dut ++
            (rangeDown 256).flatMap
              (fun x => [Event.fifoWrite (.int x), Event.fifoRead (.int x) (.int x)])) := by
  have hlen := rangeDown_length 256
  constructor
  · show (singleWordLoop sample (rangeDown 256) 0).2 = Outcome.ok ↔ _
    rw [singleWordLoop_ok_iff sample (rangeDown 256) 0]
    constructor
    · intro H i hi
      have := H i (by rw [hlen]; exact hi)
      rw [Nat.zero_add, rangeDown_getD 256 i hi] at this
      omega
    · intro H j hj
      rw [hlen] at hj
      have := H j hj
      rw [Nat.zero_add, rangeDown_getD 256 j hj]
      omega
  · intro H
    have H2 : ∀ j, j < (rangeDown 256).length → sample (0 + j) = (rangeDown 256).getD j 0 := by
      intro j hj
      rw [hlen] at hj
      rw [Nat.zero_add, rangeDown_getD 256 j hj]
      have := H j hj
      omega
    show start_clock ++ mkSourceEvents ++ mkSinkEvents ++ reset_dut ++
        (singleWordLoop sample (rangeDown 256) 0).1 = _
    rw [singleWordLoop_trace_ok sample (rangeDown 256) 0 H2]

/-- Witness for C1 at the matching oracle. -/
theorem single_word_spec_witness :
    (single_word (fun i => 255 - i)).2 = Outcome.ok :=
  (single_word_spec (fun i => 255 - i)).1.mpr (fun _ _ => rfl)

/-- C2: `full_empty` performs the same prelude, then for every `x` from 255
down to 0 reads the configured depth, writes a sequence of that length with
every element `x`, reads back a sequence of the same length, asserts every
sampled element equals `x`, and suspends on a rising edge of `rd_clk` before
the next round.  It completes without failure exactly when every sampled
element of every round equals the value written in that round of the
descending iteration. -/
theorem full_empty_spec (d : Nat) (sample : Nat → Nat → Nat) :
    ((full_empty d sample).2 = Outcome.ok ↔
        ∀ r, r < 256 → ∀ k, k < d → sample r k = 255 - r)
    ∧ ((∀ r, r < 256 → ∀ k, k < d → sample r k = 255 - r) →
        (full_empty d sample).1 =
          start_clock ++ mkSourceEvents ++ mkSinkEvents ++ reset_dut ++
            (rangeDown 256).flatMap (fun x =>
              [Event.getSignal "FIFO_DEPTH",
               Event.fifoWrite (.list (List.replicate d x)),
               Event.fifoRead (.list (List.replicate d x)) (.list (List.replicate d x)),
               Event.risingEdge "rd_clk"])) := by
  have hlen := rangeDown_length 256
  constructor
  · show (fullEmptyLoop d sample (rangeDown 256) 0).2 = Outcome.ok ↔ _
    rw [fullEmptyLoop_ok_iff d sample (rangeDown 256) 0]
    constructor
    · intro H r hr k hk
      have := H r (by rw [hlen]; exact hr) k hk
      rw [Nat.zero_add, rangeDown_getD 256 r hr] at this
      omega
    · intro H j hj k hk
      rw [hlen] at hj
      have := H j hj k hk
      rw [Nat.zero_add, rangeDown_getD 256 j hj]
      omega
  · intro H
    have H2 : ∀ j, j < (rangeDown 256).length →
        ∀ k, k < d → sample (0 + j) k = (rangeDown 256).getD j 0 := by
      intro j hj k hk
      rw [hlen] at hj
      rw [Nat.zero_add, rangeDown_getD 256 j hj]
      have := H j hj k hk
      omega
    show start_clock ++ mkSourceEvents ++ mkSinkEvents ++ reset_dut ++
        (fullEmptyLoop d sample (rangeDown 256) 0).1 = _
    rw [fullEmptyLoop_trace_ok d sample (rangeDown 256) 0 H2]

/-- Witness for C2 at depth 2 and the matching oracle. -/
theorem full_empty_spec_witness :
    (full_empty 2 (fun r _ => 255 - r)).2 = Outcome.ok :=
  (full_empty_spec 2 (fun r _ => 255 - r)).1.mpr (fun _ _ _ _ => rfl)

/-- C3 counterexample: two failing runs of `single_word` that disagree in
expected value (255 vs 254), observed value (0 vs 7) and transaction index
(0 vs 1) produce the *same* failure report, which is the constant string
`"Input data does not match output"`; hence the report includes neither the
expected value, the observed value, nor the transaction index, contrary to
the claim. -/
theorem single_word_report_cex :
    (single_word (fun _ => 0)).2 = (single_word (fun i => if i = 0 then 255 else 7)).2
    ∧ (single_word (fun _ => 0)).2 = Outcome.assertionError assertMsg := by
  constructor
  · rfl
  · rfl

/-- C3 amended: whenever a sampled read value differs from the expected
written value, the scenario aborts immediately (no transaction beyond the
failing one is issued: the trace contains exactly `i + 1` driver writes when
round `i` is the first mismatch), but the failure report is the fixed
message `"Input data does not match output"`, independent of the values and
the index. -/
theorem abort_report_fixed :
    (∀ (sample : Nat → Nat) (i : Nat), i < 256 →
        (∀ j, j < i → sample j = 255 - j) → sample i ≠ 255 - i →
        (single_word sample).2 = Outcome.assertionError assertMsg
        ∧ countWrites (single_word sample).1 = i + 1)
    ∧ (∀ (d : Nat) (sample : Nat → Nat → Nat) (r : Nat), r < 256 →
        (∀ j, j < r → ∀ k, k < d → sample j k = 255 - j) →
        ¬ (∀ k, k < d → sample r k = 255 - r) →
        (full_empty d sample).2 = Outcome.assertionError assertMsg
        ∧ countWrites (full_empty d sample).1 = r + 1) := by
  constructor
  · intro sample i hi hpre hbad
    have h := singleWordLoop_abort sample (rangeDown 256) 0 i
      (by rw [rangeDown_length]; exact hi)
      (by
        intro j hj
        rw [Nat.zero_add, rangeDown_getD 256 j (Nat.lt_trans hj hi)]
        have := hpre j hj
        omega)
      (by
        rw [Nat.zero_add, rangeDown_getD 256 i hi]
        intro hc
        exact hbad (by omega))
    refine ⟨h.1, ?_⟩
    have h2 := h.2
    simp only [countWrites] at h2 ⊢
    simp [single_word, start_clock, mkSourceEvents, mkSinkEvents, reset_dut,
      List.countP_append, List.countP_cons, h2]
  · intro d sample r hr hpre hbad
    have h := fullEmptyLoop_abort d sample (rangeDown 256) 0 r
      (by rw [rangeDown_length]; exact hr)
      (by
        intro j hj k hk
        rw [Nat.zero_add, rangeDown_getD 256 j (Nat.lt_trans hj hr)]
        have := hpre j hj k hk
        omega)
      (by
        intro hc
        refine hbad (fun k hk => ?_)
        have := hc k hk
        rw [Nat.zero_add, rangeDown_getD 256 r hr] at this
        omega)
    refine ⟨h.1, ?_⟩
    have h2 := h.2
    simp only [countWrites] at h2 ⊢
    simp [full_empty, start_clock, mkSourceEvents, mkSinkEvents, reset_dut,
      List.countP_append, List.countP_cons, h2]

/-- Witness for the amended C3: the all-zeros oracle fails `single_word` at
round 0, after exactly one driver write. -/
theorem abort_report_fixed_witness :
    (single_word (fun _ => 0)).2 = Outcome.assertionError assertMsg
    ∧ countWrites (single_word (fun _ => 0)).1 = 0 + 1 :=
  abort_report_fixed.1 (fun _ => 0) 0 (by omega)
    (fun j hj => absurd hj (Nat.not_lt_zero j)) (by decide)

/-- C4 counterexample: the claim says `in_reset` *first* drives both reset
lines to 0 and *then* starts the clocks; in the code the clock generators
are started first, so it is false that both reset assignments occur before
every `startClock` event in the trace. -/
theorem in_reset_order_cex : drivesResetsThenClocks (in_reset 1).1 = false := by
  rfl

/-- C4 amended: `in_reset` first starts all three clocks, then drives
`rd_rstn` and `wr_rstn` to 0 (and never releases them), then suspends for
10 ns, then asserts that `rd_empty` reads integer value 1 — the scenario
succeeds exactly when the sampled `rd_empty` value is 1. -/
theorem in_reset_spec (v : Nat) :
    (in_reset v).1 = [Event.startClock "wr_clk", Event.startClock "rd_clk",
      Event.startClock "data_count_clk", Event.setSignal "rd_rstn" 0,
      Event.setSignal "wr_rstn" 0, Event.timer 10, Event.getSignal "rd_empty"]
    ∧ ((in_reset v).2 = Outcome.ok ↔ v = 1) := by
  refine ⟨rfl, ?_⟩
  by_cases h : v = 1
  · simp [in_reset, h]
  · simp [in_reset, h]

/-- Witness for C4's amended theorem at the sampled value 1. -/
theorem in_reset_spec_witness : (in_reset 1).2 = Outcome.ok :=
  (in_reset_spec 1).2.mpr rfl

/-- C5: `no_clock` drives `rd_rstn` to 0, forces `rd_clk` low, drives
`wr_rstn` to 0, forces `rd_clk` low again, never starts any clock generator,
suspends for 5 ns, and asserts `rd_empty` reads integer value 1 — succeeding
exactly when the sampled value is 1. -/
theorem no_clock_spec (v : Nat) :
    (no_clock v).1 = [Event.setSignal "rd_rstn" 0, Event.setSignal "rd_clk" 0,
      Event.setSignal "wr_rstn" 0, Event.setSignal "rd_clk" 0, Event.timer 5,
      Event.getSignal "rd_empty"]
    ∧ clockFree (no_clock v).1 = true
    ∧ ((no_clock v).2 = Outcome.ok ↔ v = 1) := by
  refine ⟨rfl, rfl, ?_⟩
  by_cases h : v = 1
  · simp [no_clock, h]
  · simp [no_clock, h]

/-- Witness for C5 at the sampled value 1. -/
theorem no_clock_spec_witness : (no_clock 1).2 = Outcome.ok :=
  (no_clock_spec 1).2.2.mpr rfl

/-- C6: `reset_dut` sets the three reset lines (`rd_rstn`, `wr_rstn`,
`data_count_rstn`) to 0, suspends for exactly 5 ns, sets all three back
to 1, and performs no other effect. -/
theorem reset_dut_spec :
    reset_dut = [Event.setSignal "rd_rstn" 0, Event.setSignal "wr_rstn" 0,
      Event.setSignal "data_count_rstn" 0, Event.timer 5,
      Event.setSignal "rd_rstn" 1, Event.setSignal "wr_rstn" 1,
      Event.setSignal "data_count_rstn" 1] := rfl

/-- C7 counterexample: in `single_word` (here run with the matching oracle)
the static configuration is *not* read once per parameter: `FWFT` is read
twice (once for the source, once for the sink) and `FIFO_DEPTH` is never
read at all, so "each read once at scenario start" fails. -/
theorem config_reads_cex :
    countGet "FWFT" (single_word (fun i => 255 - i)).1 = 2
    ∧ countGet "FIFO_DEPTH" (single_word (fun i => 255 - i)).1 = 0 := by
  refine ⟨?_, ?_⟩ <;> rw [countGet_single_word] <;> decide

/-- C7 amended: the harness never writes `FIFO_DEPTH`, `FWFT` or `ACK_ENA`
in any scenario.  `single_word` and `full_empty` read `FWFT` twice and
`ACK_ENA` once while constructing the driver endpoints at scenario start;
`single_word` never reads `FIFO_DEPTH`, while `full_empty` reads it once per
round (256 times on a completing run); `in_reset` and `no_clock` read none
of the three parameters. -/
theorem config_access (d : Nat) (s1 : Nat → Nat) (s2 : Nat → Nat → Nat) (v w : Nat) :
    configUntouched (single_word s1).1 = true
    ∧ configUntouched (full_empty d s2).1 = true
    ∧ configUntouched (in_reset v).1 = true
    ∧ configUntouched (no_clock w).1 = true
    ∧ countGet "FWFT" (single_word s1).1 = 2
    ∧ countGet "ACK_ENA" (single_word s1).1 = 1
    ∧ countGet "FIFO_DEPTH" (single_word s1).1 = 0
    ∧ countGet "FWFT" (full_empty d s2).1 = 2
    ∧ countGet "ACK_ENA" (full_empty d s2).1 = 1
    ∧ ((∀ r, r < 256 → ∀ k, k < d → s2 r k = 255 - r) →
        countGet "FIFO_DEPTH" (full_empty d s2).1 = 256)
    ∧ countGet "FWFT" (in_reset v).1 = 0
    ∧ countGet "ACK_ENA" (in_reset v).1 = 0
    ∧ countGet "FIFO_DEPTH" (in_reset v).1 = 0
    ∧ countGet "FWFT" (no_clock w).1 = 0
    ∧ countGet "ACK_ENA" (no_clock w).1 = 0
    ∧ countGet "FIFO_DEPTH" (no_clock w).1 = 0 := by
  refine ⟨?_, ?_, rfl, rfl, ?_, ?_, ?_, ?_, ?_, ?_,
    rfl, rfl, rfl, rfl, rfl, rfl⟩
  · have hl := singleWordLoop_configUntouched s1 (rangeDown 256) 0
    simp only [configUntouched] at hl ⊢
    rw [show (single_word s1).1 = start_clock ++ mkSourceEvents ++ mkSinkEvents ++
        reset_dut ++ (singleWordLoop s1 (rangeDown 256) 0).1 from rfl]
    simp only [List.all_append, hl]
    rfl
  · have hl := fullEmptyLoop_configUntouched d s2 (rangeDown 256) 0
    simp only [configUntouched] at hl ⊢
    rw [show (full_empty d s2).1 = start_clock ++ mkSourceEvents ++ mkSinkEvents ++
        reset_dut ++ (fullEmptyLoop d s2 (rangeDown 256) 0).1 from rfl]
    simp only [List.all_append, hl]
    rfl
  · rw [countGet_single_word]; decide
  · rw [countGet_single_word]; decide
  · rw [countGet_single_word]; decide
  · rw [countGet_full_empty d s2 "FWFT" (by decide)]; decide
  · rw [countGet_full_empty d s2 "ACK_ENA" (by decide)]; decide
  · intro H
    have H2 : ∀ j, j < (rangeDown 256).length →
        ∀ k, k < d → s2 (0 + j) k = (rangeDown 256).getD j 0 := by
      intro j hj k hk
      rw [rangeDown_length] at hj
      rw [Nat.zero_add, rangeDown_getD 256 j hj]
      have := H j hj k hk
      omega
    have hl := fullEmptyLoop_countDepth_ok d s2 (rangeDown 256) 0 H2
    rw [rangeDown_length] at hl
    simp only [countGet] at hl ⊢
    rw [show (full_empty d s2).1 = start_clock ++ mkSourceEvents ++ mkSinkEvents ++
        reset_dut ++ (fullEmptyLoop d s2 (rangeDown 256) 0).1 from rfl]
    simp only [List.countP_append, hl]
    rfl

/-- Witness for C7's amended theorem: depth 2, matching oracle, so the
completing `full_empty` run reads `FIFO_DEPTH` 256 times. -/
theorem config_access_witness :
    countGet "FIFO_DEPTH" (full_empty 2 (fun r _ => 255 - r)).1 = 256 :=
  (config_access 2 (fun i => 255 - i) (fun r _ => 255 - r) 1 1).2.2.2.2.2.2.2.2.2.1
    (fun _ _ _ _ => rfl)

/-- C8: `random_bool` cycles a fixed 256-element list of drawn booleans, so
the element at every position `k` equals the element at position
`k mod 256`; and no scenario trace ever calls the helper, whatever the
sampled data. -/
theorem random_bool_spec (bits : Nat → Bool) (k : Nat) (s1 : Nat → Nat)
    (d : Nat) (s2 : Nat → Nat → Nat) (v w : Nat) :
    random_bool bits k = random_bool bits (k % 256)
    ∧ callsRandomBool (single_word s1).1 = false
    ∧ callsRandomBool (full_empty d s2).1 = false
    ∧ callsRandomBool (in_reset v).1 = false
    ∧ callsRandomBool (no_clock w).1 = false := by
  refine ⟨?_, ?_, ?_, rfl, rfl⟩
  · have hlen : ((List.range 256).map bits).length = 256 := by simp
    simp only [random_bool, itertools_cycle, hlen, Nat.mod_mod_of_dvd _ (dvd_refl 256)]
  · have hl := singleWordLoop_noRB s1 (rangeDown 256) 0
    simp only [callsRandomBool] at hl ⊢
    rw [show (single_word s1).1 = start_clock ++ mkSourceEvents ++ mkSinkEvents ++
        reset_dut ++ (singleWordLoop s1 (rangeDown 256) 0).1 from rfl]
    simp only [List.any_append, hl]
    rfl
  · have hl := fullEmptyLoop_noRB d s2 (rangeDown 256) 0
    simp only [callsRandomBool] at hl ⊢
    rw [show (full_empty d s2).1 = start_clock ++ mkSourceEvents ++ mkSinkEvents ++
        reset_dut ++ (fullEmptyLoop d s2 (rangeDown 256) 0).1 from rfl]
    simp only [List.any_append, hl]
    rfl

/-- Witness for C8 at concrete arguments. -/
theorem random_bool_spec_witness :
    random_bool (fun j => j % 2 == 0) 300 = random_bool (fun j => j % 2 == 0) (300 % 256) :=
  (random_bool_spec (fun j => j % 2 == 0) 300 (fun _ => 0) 1 (fun _ _ => 0) 1 1).1

/-- C9: `single_word` and `full_empty` are deterministic functions of the
read-side samples: two runs whose oracles agree on every sample the scenario
can consume produce identical traces and identical outcomes. -/
theorem scenarios_deterministic (o1 o2 : Nat → Nat) (d : Nat)
    (p1 p2 : Nat → Nat → Nat)
    (h1 : ∀ i, i < 256 → o1 i = o2 i)
    (h2 : ∀ r, r < 256 → ∀ k, k < d → p1 r k = p2 r k) :
    single_word o1 = single_word o2 ∧ full_empty d p1 = full_empty d p2 := by
  constructor
  · have h := singleWordLoop_congr o1 o2 (rangeDown 256) 0 (by
      intro j hj
      rw [rangeDown_length] at hj
      rw [Nat.zero_add]
      exact h1 j hj)
    unfold single_word
    rw [h]
  · have h := fullEmptyLoop_congr d p1 p2 (rangeDown 256) 0 (by
      intro j hj k hk
      rw [rangeDown_length] at hj
      rw [Nat.zero_add]
      exact h2 j hj k hk)
    unfold full_empty
    rw [h]

/-- Witness for C9: two syntactically different but pointwise-equal oracles
give identical runs. -/
theorem scenarios_deterministic_witness :
    single_word (fun _ => 0) = single_word (fun i => i * 0)
    ∧ full_empty 1 (fun _ _ => 0) = full_empty 1 (fun r _ => r * 0) :=
  scenarios_deterministic (fun _ => 0) (fun i => i * 0) 1 (fun _ _ => 0)
    (fun r _ => r * 0) (fun i _ => (Nat.mul_zero i).symm)
    (fun r _ _ _ => (Nat.mul_zero r).symm)

/-- C10: with `FIFO_DEPTH = 0`, every one of the 256 rounds of `full_empty`
writes the empty sequence and reads back the empty sequence (every write and
read payload in the trace is `[]`), the per-element assertion is vacuous,
and the scenario completes without failure, for any oracle. -/
theorem full_empty_depth_zero (sample : Nat → Nat → Nat) :
    (full_empty 0 sample).2 = Outcome.ok
    ∧ countWrites (full_empty 0 sample).1 = 256
    ∧ ((full_empty 0 sample).1.all (fun e =>
          match e with
          | .fifoWrite pv => pv == PyVal.list []
          | .fifoRead a b => a == PyVal.list [] && b == PyVal.list []
          | _ => true)) = true := by
  have h := fullEmptyLoop_zero sample (rangeDown 256) 0
  have hp := full_empty_parts 0 sample
  refine ⟨?_, ?_, ?_⟩
  · rw [hp.2]
    exact h.1
  · have h2 := h.2.1
    rw [rangeDown_length] at h2
    simp only [countWrites] at h2 ⊢
    rw [hp.1]
    simp only [List.countP_append, h2]
    rfl
  · have h3 := h.2.2
    rw [hp.1]
    simp only [List.all_append, h3]
    rfl

end Tb
